import Mathlib

/-!
Shallow embedding of the analysis pipeline of the estate-sale hunter
repository, and theorems settling the specification's claims about it.

Modelled source: the bigram similarity scorer, the item deduplicator, the
dollar-estimate parsing and the final value sort of the analyze route, and
the eBay sold-listings client with its batch driver.

Conventions: JS numbers are modelled as exact rationals; strings that are
scanned character by character are modelled as `List Char` (`toLowerCase`
becomes `Char.toLower`, which agrees with JS on the ASCII text the
pipeline handles); `Array.prototype.sort` with a numeric comparator is a
stable sort and is modelled by a stable insertion sort on the comparator's
key; dynamic field absence, where a claim depends on it, is modelled with
`Option` and JS exceptions with `Except`.
-/

namespace EstateHunter

/-- JS `Math.round`: round half toward positive infinity. -/
def jsRound (q : ℚ) : ℤ := ⌊q + 1 / 2⌋

/-- The adjacent character pairs of a string: `s.substring(i, i + 2)` for
each `i < s.length - 1`, as built by both bigram loops of `similarity`. -/
def bigrams (s : List Char) : List (Char × Char) := s.zip s.tail

/-- The consuming match count of `similarity`: scan the bigrams of the
second string and for each one that is still available in the remaining
multiset of the first string's bigrams (`count > 0` in the source's count
Map), consume one occurrence (decrement) and count an intersection. -/
def countConsume (avail : Multiset (Char × Char)) : List (Char × Char) → ℕ
  | [] => 0
  | b :: rest =>
    if b ∈ avail then countConsume (avail.erase b) rest + 1
    else countConsume avail rest

/-- `similarity` from src/app/api/analyze/route.js: 1 on case-insensitive
equality, 0 when either lowercased string is shorter than 2, otherwise the
Dice coefficient `2 * intersections / (len a + len b - 2)` with consuming
bigram matches. -/
def similarity (a b : List Char) : ℚ :=
  let aLower := a.map Char.toLower
  let bLower := b.map Char.toLower
  if aLower = bLower then 1
  else if aLower.length < 2 ∨ bLower.length < 2 then 0
  else (2 * countConsume (↑(bigrams aLower)) (bigrams bLower) : ℚ) /
    ((aLower.length : ℚ) + (bLower.length : ℚ) - 2)

/-- One mapped sold listing from the eBay response. Display-only fields
that no modelled logic reads (currency, dates, URLs, condition label) are
omitted. -/
structure Sold where
  title : String
  soldPrice : ℚ
deriving DecidableEq

/-- The price statistics `findSoldListings` computes on a success; the
orchestrator's merge step copies the same record onto an item. -/
structure EbayStats where
  count : ℕ
  totalResults : ℕ
  median : ℤ
  mean : ℤ
  low : ℚ
  high : ℚ
  recentSales : List Sold
deriving DecidableEq

/-- A detected item as the deduplicator and the report stages read it.
Fields the modelled code never reads (brand, model, era, condition,
confidence reasoning, photo index and URL) are omitted; `ebay` is the
comp summary the merge step may attach (absent until then). -/
structure Item where
  name : List Char
  category : String
  search_query : List Char
  confidence : String
  notable_features : List String
  estimated_value_hint : Option (List Char)
  ebay : Option EbayStats
deriving DecidableEq

/-- `confidenceRank[c] || 0` with `confidenceRank = {high: 3, medium: 2,
low: 1}`. -/
def rank (c : String) : ℕ :=
  if c = "high" then 3 else if c = "medium" then 2 else if c = "low" then 1 else 0

/-- Stable insertion (descending by `key`) of one element: the element
goes in front of the first kept element with a strictly smaller key, so
among equal keys earlier elements stay first. -/
def insDescBy {α β : Type} [LinearOrder β] (key : α → β) (x : α) : List α → List α
  | [] => [x]
  | y :: ys => if key y ≤ key x then x :: y :: ys else y :: insDescBy key x ys

/-- Stable descending sort by `key`, modelling `[...l].sort((a, b) =>
key(b) - key(a))` (JS sort is stable and, with this consistent numeric
comparator, orders by descending key). -/
def sortDescBy {α β : Type} [LinearOrder β] (key : α → β) (l : List α) : List α :=
  l.foldr (insDescBy key) []

/-- Adding one feature to the accumulated set (JS `Set.add`: first
insertion position is kept, re-adding an element changes nothing). -/
def addUniq (acc : List String) (f : String) : List String :=
  if f ∈ acc then acc else acc ++ [f]

/-- The feature merge of `deduplicateItems`: seed a Set with the kept
item's features, add each candidate feature, spread back to an array. -/
def mergeFeatures (ex cand : List String) : List String :=
  cand.foldl addUniq (ex.foldl addUniq [])

/-- The in-place update of a kept item on a duplicate hit: only
`notable_features` changes. -/
def mergeInto (ex item : Item) : Item :=
  { ex with notable_features := mergeFeatures ex.notable_features item.notable_features }

/-- Inner loop of `deduplicateItems`: scan the kept list in order for a
same-category near duplicate of `item`; on the first hit, merge the
candidate's features into that kept item and stop (`some` of the updated
kept list); `none` when no kept item matches. -/
def tryMerge (nT qT : ℚ) (item : Item) : List Item → Option (List Item)
  | [] => none
  | ex :: rest =>
    if item.category ≠ ex.category then (tryMerge nT qT item rest).map (ex :: ·)
    else if nT ≤ similarity item.name ex.name ∨
        qT ≤ similarity item.search_query ex.search_query then
      some (mergeInto ex item :: rest)
    else (tryMerge nT qT item rest).map (ex :: ·)

/-- One iteration of the outer loop of `deduplicateItems`: merge the
candidate into a kept duplicate, or append it (as a copy) to the kept
list. -/
def dedupStep (nT qT : ℚ) (kept : List Item) (item : Item) : List Item :=
  match tryMerge nT qT item kept with
  | some kept2 => kept2
  | none => kept ++ [item]

/-- `deduplicateItems` from src/app/api/analyze/route.js: stable sort by
confidence rank descending, then the keep-or-merge walk. The source's
default thresholds are `nT = 3/4`, `qT = 7/10`. -/
def deduplicateItems (items : List Item) (nT qT : ℚ) : List Item :=
  (sortDescBy (fun it => rank it.confidence) items).foldl (dedupStep nT qT) []

/-- The fields of an item that the duplicate test and the confidence sort
read; a feature merge changes none of them. -/
def eqKeys (a b : Item) : Prop :=
  a.name = b.name ∧ a.category = b.category ∧ a.search_query = b.search_query ∧
    a.confidence = b.confidence

/-- Relation between an earlier-kept item `ex` and a later item `it`: if
they share a category, both similarity scores (computed with the later
item as first argument, as in the source's scan) are below the
thresholds. -/
def noDup (nT qT : ℚ) (ex it : Item) : Prop :=
  it.category = ex.category →
    similarity it.name ex.name < nT ∧ similarity it.search_query ex.search_query < qT

/-- Numeric value of a run of decimal digits (JS `parseInt` applied to the
`\d+` capture). -/
def digitsVal (ds : List Char) : ℕ :=
  ds.foldl (fun n c => 10 * n + (c.toNat - 48)) 0

/-- Whether a string starts with a decimal digit. -/
def startsWithDigit : List Char → Bool
  | [] => false
  | d :: _ => d.isDigit

/-- All matches of the regex `\$(\d+)` with the `g` flag, in order: a match
is a dollar sign followed by a maximal run of digits, and scanning resumes
after the digits. -/
def dollarMatches : List Char → List ℕ
  | [] => []
  | c :: rest =>
    if c = '$' ∧ startsWithDigit rest = true then
      digitsVal (rest.takeWhile Char.isDigit) :: dollarMatches (rest.dropWhile Char.isDigit)
    else dollarMatches rest
termination_by l => l.length
decreasing_by
  · simpa using Nat.lt_succ_of_le (List.dropWhile_sublist Char.isDigit).length_le
  · simp

/-- `parseEstimate` from the analyze route: 0 on a falsy hint, else the
number of the first `$<number>` match, else 0. -/
def parseEstimate (hint : Option (List Char)) : ℕ :=
  match hint with
  | none => 0
  | some h => if h = [] then 0 else (dollarMatches h).headD 0

/-- The fields of the parsed `findCompletedItemsResponse[0]` that
`findSoldListings` reads: the ack flag, the optional error message, the
mapped sold items of the search result, and the pagination total (its
string-to-integer parse collapsed to the parsed value). -/
structure EbayBody where
  ack : Option String
  errorMessage : Option String
  items : List Sold
  totalEntries : ℕ
deriving DecidableEq

/-- The observable outcome of the single `fetch` in `findSoldListings`:
the request rejects, the response has a non-2xx status (`!response.ok`),
the body fails to parse as JSON, or a parsed body arrives. -/
inductive Outcome where
  | networkError (msg : String)
  | httpError (status : ℕ)
  | jsonError (msg : String)
  | body (b : EbayBody)
deriving DecidableEq

/-- The outcomes the specification calls failures: a network failure, a
non-success HTTP status, an unparseable body, or a marketplace-reported
error (ack not `Success`, which also covers a missing response object). -/
def Outcome.isFailure : Outcome → Bool
  | .networkError _ => true
  | .httpError _ => true
  | .jsonError _ => true
  | .body b => decide (b.ack ≠ some ("Success"))

/-- The two shapes `findSoldListings` returns. -/
inductive LookupResult where
  | unavailable (reason : String)
  | available (stats : EbayStats)
deriving DecidableEq

/-- The `options` object of `findSoldListings`. It only shapes the request
URL and item filters, which the embedding abstracts into the `Outcome`, so
no modelled logic reads it. -/
structure LookupOptions where
  maxResults : ℕ
  categoryId : Option String
  minPrice : Option ℤ
  maxPrice : Option ℤ
deriving DecidableEq

/-- `median` from src/app/lib/ebay: sort ascending (`(a, b) => a - b`),
take the rounded middle element for odd length, the rounded average of the
two middle elements for even length. The source only calls it on nonempty
lists; out-of-range reads are given default 0. -/
def median (arr : List ℚ) : ℤ :=
  let sorted := sortDescBy (fun q : ℚ => -q) arr
  let mid := sorted.length / 2
  if sorted.length % 2 ≠ 0 then jsRound (sorted.getD mid 0)
  else jsRound ((sorted.getD (mid - 1) 0 + sorted.getD mid 0) / 2)

/-- `findSoldListings` from src/app/lib/ebay: credential check, then the
abstracted request. Every failure path lands in the `catch` (the non-ok
status, the bad body and the non-success ack are thrown, then caught) and
yields `unavailable` with the thrown message; a success body yields
`available` with the computed statistics. The URL, query and item-filter
construction only shape the abstracted request and are not modelled. -/
def findSoldListings (appId : Option String) (searchQuery : List Char)
    (opts : LookupOptions) (outcome : Outcome) : LookupResult :=
  match appId with
  | none => .unavailable ("EBAY_APP_ID not configured")
  | some _ =>
    match outcome with
    | .networkError msg => .unavailable msg
    | .httpError status => .unavailable ("eBay API error: " ++ toString status)
    | .jsonError msg => .unavailable msg
    | .body b =>
      if b.ack ≠ some ("Success") then
        .unavailable (b.errorMessage.getD ("Unknown eBay API error"))
      else
        match (b.items.map Sold.soldPrice).filter (fun p => 0 < p) with
        | [] => .available ⟨0, b.totalEntries, 0, 0, 0, 0, []⟩
        | p :: ps =>
          .available ⟨(p :: ps).length, b.totalEntries, median (p :: ps),
            jsRound ((p :: ps).sum / ((p :: ps).length : ℚ)),
            ps.foldl min p, ps.foldl max p, b.items.take 5⟩

/-- An item as the duck-typed `batchPriceLookup` reads it: the three
fields it accesses, any of which the caller may omit. -/
structure BItem where
  name : List Char
  search_query : Option (List Char)
  estimated_value_hint : Option (List Char)
deriving DecidableEq

/-- The arguments of one `findSoldListings(item.search_query, {minPrice,
maxPrice})` call made by `batchPriceLookup`. -/
structure LookupCall where
  query : List Char
  minPrice : Option ℤ
  maxPrice : Option ℤ
deriving DecidableEq

/-- One `{itemName, ebay}` record of the batch result. -/
structure BatchEntry where
  itemName : List Char
  ebay : LookupResult
deriving DecidableEq

/-- The price-range derivation inside `batchPriceLookup`: a falsy hint or
no `$<number>` match leaves both bounds null; otherwise low is the first
match, high the second (or the first again), widened to
`max(1, round(low * 0.3))` through `round(high * 3)`. -/
def priceRange (hint : Option (List Char)) : Option ℤ × Option ℤ :=
  match hint with
  | none => (none, none)
  | some h =>
    if h = [] then (none, none)
    else
      match dollarMatches h with
      | [] => (none, none)
      | low :: rest =>
        (some (max 1 (jsRound ((low : ℚ) * (3 / 10)))),
          some (jsRound ((rest.headD low : ℚ) * 3)))

/-- The call, if any, that `batchPriceLookup`'s task for one item makes to
`findSoldListings`: none when `item.search_query` is falsy (absent or
empty). -/
def plannedCall (it : BItem) : Option LookupCall :=
  match it.search_query with
  | none => none
  | some [] => none
  | some (c :: q) =>
    let r := priceRange it.estimated_value_hint
    some ⟨c :: q, r.1, r.2⟩

/-- One batch task: the falsy-query short circuit, otherwise the lookup.
`lookup` abstracts `findSoldListings` behind the network: the task's
result is `lookup` applied to the planned call. -/
def entryOf (lookup : LookupCall → LookupResult) (it : BItem) : BatchEntry :=
  match plannedCall it with
  | none => ⟨it.name, .unavailable ("No search query")⟩
  | some c => ⟨it.name, lookup c⟩

/-- `batchPriceLookup` from src/app/lib/ebay: slices of `concurrency`
items processed strictly in order; `Promise.allSettled` over a slice of
these tasks (pure in the embedding, so none rejects) fulfils every slot,
and the fulfilled values are pushed in slice order. -/
def batchPriceLookup (lookup : LookupCall → LookupResult) (concurrency : ℕ) :
    List BItem → List BatchEntry
  | [] => []
  | it :: rest =>
    (it :: rest.take (concurrency - 1)).map (entryOf lookup) ++
      batchPriceLookup lookup concurrency (rest.drop (concurrency - 1))
termination_by l => l.length
decreasing_by
  simpa using Nat.lt_succ_of_le (by simpa using List.length_drop_le (concurrency - 1) rest)

/-- View of a deduplicated item through the duck-typed interface of
`batchPriceLookup` (its `search_query` and hint fields read from the
vision output are present strings there). -/
def toBItem (it : Item) : BItem := ⟨it.name, some it.search_query, it.estimated_value_hint⟩

/-- The orchestrator's merge step for one item: find the first lookup
entry with the same item name; when it is available with a positive count,
attach its statistics as the item's `ebay` field. -/
def attachEbay (lookups : List BatchEntry) (it : Item) : Item :=
  match lookups.find? (fun r => decide (r.itemName = it.name)) with
  | none => it
  | some r =>
    match r.ebay with
    | .available st => if 0 < st.count then { it with ebay := some st } else it
    | .unavailable _ => it

/-- The final sort key of the analyze route:
`a.ebay?.median || parseEstimate(a.estimated_value_hint)`. The JS `||`
falls through to the parsed estimate when `ebay` is absent and also when
the attached median is the falsy number 0. -/
def sortValue (it : Item) : ℚ :=
  match it.ebay with
  | some e =>
    if e.median ≠ 0 then (e.median : ℚ) else (parseEstimate it.estimated_value_hint : ℚ)
  | none => (parseEstimate it.estimated_value_hint : ℚ)

/-- Steps 4 and 5 of the orchestrator on the deduplicated items: batch
price lookup with concurrency 3, merge by item name, then the descending
value sort that orders the report's item list. -/
def reportItems (lookup : LookupCall → LookupResult) (deduped : List Item) : List Item :=
  sortDescBy sortValue
    (deduped.map (attachEbay (batchPriceLookup lookup 3 (deduped.map toBItem))))

/-- The report's sort key exactly as the specification words it, for the
refinement comparison: the marketplace median whenever comp data is
present, otherwise the parsed estimate. -/
def claimValue (it : Item) : ℚ :=
  match it.ebay with
  | some e => (e.median : ℚ)
  | none => (parseEstimate it.estimated_value_hint : ℚ)

/-- An item as the dynamically typed `deduplicateItems` actually receives
it from the vision parse: any field it reads may be absent. -/
structure RawItem where
  name : Option (List Char)
  category : Option String
  search_query : Option (List Char)
  confidence : Option String
  notable_features : Option (List String)
deriving DecidableEq

/-- The message of the TypeError raised when `similarity` lowercases a
missing field. -/
def undefinedLowerMsg : String :=
  "TypeError: Cannot read properties of undefined (reading toLowerCase)"

/-- `similarity` applied to possibly-missing arguments: `a.toLowerCase()`
runs first and raises on a missing `a`, then `b.toLowerCase()` raises on
a missing `b`; with both present the pure score is returned. -/
def similarityE (a b : Option (List Char)) : Except String ℚ :=
  match a, b with
  | none, _ => .error undefinedLowerMsg
  | some _, none => .error undefinedLowerMsg
  | some x, some y => .ok (similarity x y)

/-- `confidenceRank[c] || 0` when the confidence field may be absent
(an absent key indexes to undefined, which `|| 0` turns into 0). -/
def rankD (c : Option String) : ℕ :=
  match c with
  | none => 0
  | some s => rank s

/-- The feature merge on dynamically typed items: both feature lists are
defaulted with `|| []` before merging. -/
def mergeIntoE (ex item : RawItem) : RawItem :=
  { ex with
      notable_features := some
        (mergeFeatures (ex.notable_features.getD []) (item.notable_features.getD [])) }

/-- The kept-list scan on dynamically typed items. The category comparison
is `!==`, which never throws (undefined equals undefined); both similarity
calls run before the threshold test, and a TypeError from either aborts
the whole walk. -/
def tryMergeE (nT qT : ℚ) (item : RawItem) :
    List RawItem → Except String (Option (List RawItem))
  | [] => .ok none
  | ex :: rest =>
    if item.category ≠ ex.category then
      (tryMergeE nT qT item rest).map (Option.map (ex :: ·))
    else
      match similarityE item.name ex.name, similarityE item.search_query ex.search_query with
      | .error e, _ => .error e
      | .ok _, .error e => .error e
      | .ok nameSim, .ok querySim =>
        if nT ≤ nameSim ∨ qT ≤ querySim then .ok (some (mergeIntoE ex item :: rest))
        else (tryMergeE nT qT item rest).map (Option.map (ex :: ·))

/-- One outer-loop iteration on dynamically typed items; a raised
TypeError propagates. -/
def dedupStepE (nT qT : ℚ) (kept : Except String (List RawItem)) (item : RawItem) :
    Except String (List RawItem) :=
  match kept with
  | .error e => .error e
  | .ok k =>
    match tryMergeE nT qT item k with
    | .error e => .error e
    | .ok (some k2) => .ok k2
    | .ok none => .ok (k ++ [item])

/-- `deduplicateItems` on dynamically typed items: the sort comparator
only indexes `confidenceRank` (total), then the walk runs with exception
propagation. -/
def deduplicateItemsE (items : List RawItem) (nT qT : ℚ) : Except String (List RawItem) :=
  (sortDescBy (fun it => rankD it.confidence) items).foldl (dedupStepE nT qT) (.ok [])

/-- The fields the deduplicator applies `similarity` to, required present
by its implicit precondition. -/
def stringFields (it : RawItem) : Prop := it.name.isSome ∧ it.search_query.isSome

instance (it : RawItem) : Decidable (stringFields it) := by
  unfold stringFields; infer_instance

/-! ### Concrete fixtures used by witnesses and counterexamples -/

/-- Character list of a string literal. -/
def lc (s : String) : List Char := s.data

/-- Two clearly distinct same-category items (for the deduplication
invariant witness). -/
def itemA : Item := ⟨lc ("ab"), "art", lc ("xy"), "high", [], none, none⟩

def itemB : Item := ⟨lc ("cd"), "art", lc ("zw"), "high", [], none, none⟩

/-- Two same-category items with identical names and differing confidence
(for the merge witness). -/
def itemHigh : Item :=
  ⟨lc ("pyrex"), "kitchenware", lc ("qa"), "high", ["blue"], none, none⟩

def itemMed : Item :=
  ⟨lc ("pyrex"), "kitchenware", lc ("qb"), "medium", ["flaw", "blue"], none, none⟩

/-- A well-typed and an ill-typed raw item (for the dynamic-failure
claim): the second has no `search_query`. -/
def rawGood : RawItem := ⟨some (lc ("ab")), some ("art"), some (lc ("xy")), some ("high"), none⟩

def rawBad : RawItem := ⟨some (lc ("cd")), some ("art"), none, some ("low"), none⟩

/-- Fixtures for the sort-key counterexample: an eBay body whose only
sold price is 40 cents, so the computed median rounds to 0. -/
def ceBody : EbayBody := ⟨some ("Success"), none, [⟨"forty cent comp", 2 / 5⟩], 1⟩

def ceOpts : LookupOptions := ⟨8, none, none, none⟩

/-- Item whose lookup succeeds with that zero median, and whose own
estimate is higher than its sibling's. -/
def ceItemX : Item := ⟨lc ("x1"), "art", lc ("qx"), "high", [], some (lc ("$50")), none⟩

/-- Item without marketplace data and a lower estimate. -/
def ceItemY : Item := ⟨lc ("y1"), "art", lc ("qy"), "high", [], some (lc ("$30")), none⟩

/-- The abstracted marketplace for the counterexample: the first item's
query finds the 40-cent comp, every other query is unavailable. -/
def ceLookup (c : LookupCall) : LookupResult :=
  if c.query = lc ("qx") then findSoldListings (some ("app")) (lc ("qx")) ceOpts (.body ceBody)
  else .unavailable ("no data")

/-- Item for the price-range counterexample: estimate `$5`, so the
widened lower bound `round(5 * 0.3) = 2` differs from 30% of 5. -/
def ce7Item : BItem := ⟨lc ("vase"), some (lc ("q")), some (lc ("$5"))⟩

/-- Item with an empty (falsy) search query, for the short-circuit
witness. -/
def ce8Item : BItem := ⟨lc ("lamp"), some [], none⟩

/-! ## Similarity scorer lemmas -/

/-- The consuming match consumes, for each distinct bigram, exactly the
smaller of its two multiplicities: the count is the size of the multiset
intersection, independent of scan order. -/
theorem countConsume_eq_card_inter (bs : List (Char × Char)) :
    ∀ avail : Multiset (Char × Char),
      countConsume avail bs = Multiset.card (avail ∩ ↑bs) := by
  induction bs with
  | nil => intro avail; simp [countConsume]
  | cons b rest ih =>
    intro avail
    by_cases hb : b ∈ avail
    · rw [countConsume, if_pos hb, ih (avail.erase b), ← Multiset.cons_coe,
        Multiset.inter_comm avail, Multiset.cons_inter_of_pos _ hb, Multiset.card_cons,
        Multiset.inter_comm ((rest : Multiset (Char × Char)))]
    · rw [countConsume, if_neg hb, ih avail, ← Multiset.cons_coe,
        Multiset.inter_comm avail (b ::ₘ (rest : Multiset (Char × Char))),
        Multiset.cons_inter_of_neg _ hb,
        Multiset.inter_comm ((rest : Multiset (Char × Char)))]

theorem similarity_self (s : List Char) : similarity s s = 1 := by
  simp [similarity]

theorem similarity_symm_aux (a b : List Char) : similarity a b = similarity b a := by
  simp only [similarity]
  by_cases h : a.map Char.toLower = b.map Char.toLower
  · rw [if_pos h, if_pos h.symm]
  · rw [if_neg h, if_neg (Ne.symm h)]
    by_cases hl : (a.map Char.toLower).length < 2 ∨ (b.map Char.toLower).length < 2
    · rw [if_pos hl, if_pos (Or.symm hl)]
    · rw [if_neg hl, if_neg (fun hh => hl (Or.symm hh))]
      rw [countConsume_eq_card_inter, countConsume_eq_card_inter, Multiset.inter_comm]
      ring

/-- C9: similarity is symmetric: for every pair of strings a, b,
similarity(a, b) = similarity(b, a), despite the asymmetric
consuming-match algorithm that builds the bigram multiset from the first
argument and consumes it while scanning the second. -/
theorem similarity_symmetric (a b : List Char) : similarity a b = similarity b a :=
  similarity_symm_aux a b

/-- C4 counterexample: the claim "either string of length < 2 scores 0"
fails on the single-character pair ("a", "a"): the case-insensitive
equality check runs first and returns 1. -/
theorem similarity_short_equal_cex :
    (['a'] : List Char).length < 2 ∧ similarity ['a'] ['a'] = 1 ∧ similarity ['a'] ['a'] ≠ 0 := by
  refine ⟨by norm_num, similarity_self ['a'], ?_⟩
  rw [similarity_self ['a']]
  norm_num

/-- C4 (amended): for every pair of strings that are not case-insensitively
equal, if either has length less than 2 then similarity(a, b) = 0. -/
theorem similarity_short_strings (a b : List Char)
    (hne : a.map Char.toLower ≠ b.map Char.toLower)
    (hlen : a.length < 2 ∨ b.length < 2) : similarity a b = 0 := by
  simp only [similarity]
  rw [if_neg hne, if_pos (by simpa using hlen)]

theorem similarity_short_strings_witness :
    (['a'] : List Char).map Char.toLower ≠ (['b', 'c'] : List Char).map Char.toLower ∧
      ((['a'] : List Char).length < 2 ∨ (['b', 'c'] : List Char).length < 2) ∧
      similarity ['a'] ['b', 'c'] = 0 :=
  ⟨by simp, Or.inl (by norm_num),
    similarity_short_strings ['a'] ['b', 'c'] (by simp) (Or.inl (by norm_num))⟩

/-! ## Stable sort lemmas -/

theorem mem_insDescBy {α β : Type} [LinearOrder β] (key : α → β) (x z : α) :
    ∀ l : List α, z ∈ insDescBy key x l ↔ z = x ∨ z ∈ l := by
  intro l
  induction l with
  | nil => simp [insDescBy]
  | cons y ys ih =>
    rw [insDescBy]
    by_cases h : key y ≤ key x
    · rw [if_pos h]
      simp [List.mem_cons]
    · rw [if_neg h]
      simp only [List.mem_cons, ih]
      tauto

theorem pairwise_insDescBy {α β : Type} [LinearOrder β] (key : α → β) (x : α) :
    ∀ l : List α, l.Pairwise (fun a b => key b ≤ key a) →
      (insDescBy key x l).Pairwise (fun a b => key b ≤ key a) := by
  intro l
  induction l with
  | nil => intro _; simp [insDescBy]
  | cons y ys ih =>
    intro h
    rw [List.pairwise_cons] at h
    obtain ⟨hy, hys⟩ := h
    rw [insDescBy]
    by_cases hk : key y ≤ key x
    · rw [if_pos hk, List.pairwise_cons]
      refine ⟨?_, List.pairwise_cons.mpr ⟨hy, hys⟩⟩
      intro z hz
      rcases List.mem_cons.mp hz with rfl | hz'
      · exact hk
      · exact (hy z hz').trans hk
    · rw [if_neg hk, List.pairwise_cons]
      refine ⟨?_, ih hys⟩
      intro z hz
      rcases (mem_insDescBy key x z ys).mp hz with rfl | hz'
      · exact le_of_lt (not_le.mp hk)
      · exact hy z hz'

theorem sortDescBy_pairwise {α β : Type} [LinearOrder β] (key : α → β) (l : List α) :
    (sortDescBy key l).Pairwise (fun a b => key b ≤ key a) := by
  induction l with
  | nil => simp [sortDescBy]
  | cons x xs ih => exact pairwise_insDescBy key x _ ih

theorem sortDescBy_eq_of_pairwise {α β : Type} [LinearOrder β] (key : α → β) :
    ∀ l : List α, l.Pairwise (fun a b => key b ≤ key a) → sortDescBy key l = l := by
  intro l
  induction l with
  | nil => intro _; rfl
  | cons x xs ih =>
    intro h
    rw [List.pairwise_cons] at h
    obtain ⟨hx, hxs⟩ := h
    show insDescBy key x (sortDescBy key xs) = x :: xs
    rw [ih hxs]
    cases xs with
    | nil => rfl
    | cons y ys => rw [insDescBy, if_pos (hx y (List.mem_cons_self y ys))]

theorem mem_sortDescBy {α β : Type} [LinearOrder β] (key : α → β) (z : α) :
    ∀ l : List α, z ∈ sortDescBy key l ↔ z ∈ l := by
  intro l
  induction l with
  | nil => simp [sortDescBy]
  | cons x xs ih =>
    show z ∈ insDescBy key x (sortDescBy key xs) ↔ _
    rw [mem_insDescBy, ih]
    simp [List.mem_cons]

/-! ## Deduplicator lemmas -/

theorem eqKeys_refl (a : Item) : eqKeys a a := ⟨rfl, rfl, rfl, rfl⟩

theorem forall₂_eqKeys_refl (l : List Item) : List.Forall₂ eqKeys l l :=
  List.forall₂_same.mpr fun x _ => eqKeys_refl x

theorem forall₂_eqKeys_mem_right :
    ∀ {l l' : List Item}, List.Forall₂ eqKeys l l' → ∀ {b}, b ∈ l' → ∃ a ∈ l, eqKeys a b := by
  intro l l' h
  induction h with
  | nil => intro b hb; exact absurd hb (List.not_mem_nil b)
  | cons hab htail ih =>
    intro b hb
    rcases List.mem_cons.mp hb with rfl | hb'
    · exact ⟨_, List.mem_cons_self _ _, hab⟩
    · obtain ⟨a, ham, hak⟩ := ih hb'
      exact ⟨a, List.mem_cons_of_mem _ ham, hak⟩

theorem pairwise_of_forall₂_eqKeys {R : Item → Item → Prop}
    (hcongr : ∀ a a' b b', eqKeys a a' → eqKeys b b' → R a b → R a' b') :
    ∀ {l l' : List Item}, List.Forall₂ eqKeys l l' → l.Pairwise R → l'.Pairwise R := by
  intro l l' hf
  induction hf with
  | nil => intro _; exact List.Pairwise.nil
  | cons hab htail ih =>
    intro hp
    rw [List.pairwise_cons] at hp
    obtain ⟨hhead, htl⟩ := hp
    rw [List.pairwise_cons]
    refine ⟨?_, ih htl⟩
    intro b' hb'
    obtain ⟨b, hbm, hbk⟩ := forall₂_eqKeys_mem_right htail hb'
    exact hcongr _ _ _ _ hab hbk (hhead b hbm)

theorem noDup_congr (nT qT : ℚ) (a a' b b' : Item) (ha : eqKeys a a') (hb : eqKeys b b') :
    noDup nT qT a b → noDup nT qT a' b' := by
  obtain ⟨ha1, ha2, ha3, _⟩ := ha
  obtain ⟨hb1, hb2, hb3, _⟩ := hb
  intro h hc
  rw [← hb1, ← hb3, ← ha1, ← ha3]
  exact h (by rw [hb2, ha2]; exact hc)

theorem rankLe_congr (a a' b b' : Item) (ha : eqKeys a a') (hb : eqKeys b b') :
    rank b.confidence ≤ rank a.confidence → rank b'.confidence ≤ rank a'.confidence := by
  rw [← ha.2.2.2, ← hb.2.2.2]
  exact id

theorem tryMerge_eq_none_iff (nT qT : ℚ) (item : Item) :
    ∀ kept : List Item,
      tryMerge nT qT item kept = none ↔ ∀ ex ∈ kept, noDup nT qT ex item := by
  intro kept
  induction kept with
  | nil => simp [tryMerge]
  | cons ex rest ih =>
    rw [tryMerge, List.forall_mem_cons]
    by_cases hcat : item.category ≠ ex.category
    · rw [if_pos hcat, Option.map_eq_none', ih]
      have hvac : noDup nT qT ex item := fun hc => absurd hc hcat
      exact ⟨fun h => ⟨hvac, h⟩, fun h => h.2⟩
    · rw [if_neg hcat]
      rw [not_ne_iff] at hcat
      by_cases hsim : nT ≤ similarity item.name ex.name ∨
          qT ≤ similarity item.search_query ex.search_query
      · rw [if_pos hsim]
        constructor
        · intro h; exact absurd h (by simp)
        · intro h
          obtain ⟨h1, h2⟩ := h.1 hcat
          rcases hsim with hs | hs
          · exact absurd hs (not_le.mpr h1)
          · exact absurd hs (not_le.mpr h2)
      · rw [if_neg hsim, Option.map_eq_none', ih]
        push_neg at hsim
        have hok : noDup nT qT ex item := fun _ => hsim
        exact ⟨fun h => ⟨hok, h⟩, fun h => h.2⟩

theorem tryMerge_eq_some_forall₂ (nT qT : ℚ) (item : Item) :
    ∀ kept kept2 : List Item,
      tryMerge nT qT item kept = some kept2 → List.Forall₂ eqKeys kept kept2 := by
  intro kept
  induction kept with
  | nil => intro kept2 h; simp [tryMerge] at h
  | cons ex rest ih =>
    intro kept2 h
    rw [tryMerge] at h
    by_cases hcat : item.category ≠ ex.category
    · rw [if_pos hcat, Option.map_eq_some'] at h
      obtain ⟨r2, hr2, rfl⟩ := h
      exact List.Forall₂.cons (eqKeys_refl ex) (ih r2 hr2)
    · rw [if_neg hcat] at h
      by_cases hsim : nT ≤ similarity item.name ex.name ∨
          qT ≤ similarity item.search_query ex.search_query
      · rw [if_pos hsim] at h
        obtain rfl : mergeInto ex item :: rest = kept2 := Option.some_injective _ h
        exact List.Forall₂.cons ⟨rfl, rfl, rfl, rfl⟩ (forall₂_eqKeys_refl rest)
      · rw [if_neg hsim, Option.map_eq_some'] at h
        obtain ⟨r2, hr2, rfl⟩ := h
        exact List.Forall₂.cons (eqKeys_refl ex) (ih r2 hr2)

theorem dedupStep_of_none {nT qT : ℚ} {K : List Item} {x : Item}
    (h : tryMerge nT qT x K = none) : dedupStep nT qT K x = K ++ [x] := by
  simp [dedupStep, h]

theorem dedupStep_of_some {nT qT : ℚ} {K k2 : List Item} {x : Item}
    (h : tryMerge nT qT x K = some k2) : dedupStep nT qT K x = k2 := by
  simp [dedupStep, h]

/-- The keep-or-merge walk preserves the pairwise no-near-duplicate
invariant of the kept list: a merge only changes a feature list, an append
is guarded by the failed scan. -/
theorem pairwise_noDup_foldl (nT qT : ℚ) :
    ∀ l K : List Item, K.Pairwise (noDup nT qT) →
      (l.foldl (dedupStep nT qT) K).Pairwise (noDup nT qT) := by
  intro l
  induction l with
  | nil => intro K h; exact h
  | cons x xs ih =>
    intro K h
    show (xs.foldl (dedupStep nT qT) (dedupStep nT qT K x)).Pairwise (noDup nT qT)
    apply ih
    cases htm : tryMerge nT qT x K with
    | none =>
      rw [dedupStep_of_none htm]
      refine List.pairwise_append.mpr ⟨h, by simp, ?_⟩
      intro a ha b hb
      rw [List.mem_singleton] at hb
      rw [hb]
      exact (tryMerge_eq_none_iff nT qT x K).mp htm a ha
    | some k2 =>
      rw [dedupStep_of_some htm]
      exact pairwise_of_forall₂_eqKeys (noDup_congr nT qT)
        (tryMerge_eq_some_forall₂ nT qT x K k2 htm) h

theorem deduplicateItems_pairwise (items : List Item) (nT qT : ℚ) :
    (deduplicateItems items nT qT).Pairwise (noDup nT qT) :=
  pairwise_noDup_foldl nT qT _ [] List.Pairwise.nil

theorem noDup_symmetric (nT qT : ℚ) : Symmetric (noDup nT qT) := by
  intro a b h hc
  obtain ⟨h1, h2⟩ := h hc.symm
  constructor
  · rw [similarity_symm_aux]; exact h1
  · rw [similarity_symm_aux]; exact h2

/-- The keep-or-merge walk keeps the kept list sorted by descending
confidence rank when it consumes a rank-sorted input. -/
theorem sorted_foldl_dedupStep (nT qT : ℚ) :
    ∀ l K : List Item,
      l.Pairwise (fun a b => rank b.confidence ≤ rank a.confidence) →
      K.Pairwise (fun a b => rank b.confidence ≤ rank a.confidence) →
      (∀ ex ∈ K, ∀ it ∈ l, rank it.confidence ≤ rank ex.confidence) →
      (l.foldl (dedupStep nT qT) K).Pairwise
        (fun a b => rank b.confidence ≤ rank a.confidence) := by
  intro l
  induction l with
  | nil => intro K _ hK _; exact hK
  | cons x xs ih =>
    intro K hl hK hlb
    rw [List.pairwise_cons] at hl
    obtain ⟨hx, hxs⟩ := hl
    show (xs.foldl (dedupStep nT qT) (dedupStep nT qT K x)).Pairwise _
    cases htm : tryMerge nT qT x K with
    | none =>
      rw [dedupStep_of_none htm]
      apply ih _ hxs
      · refine List.pairwise_append.mpr ⟨hK, by simp, ?_⟩
        intro a ha b hb
        rw [List.mem_singleton] at hb
        rw [hb]
        exact hlb a ha x (List.mem_cons_self x xs)
      · intro ex hex it hit
        rcases List.mem_append.mp hex with hex' | hex'
        · exact hlb ex hex' it (List.mem_cons_of_mem x hit)
        · rw [List.mem_singleton] at hex'
          subst hex'
          exact hx it hit
    | some k2 =>
      rw [dedupStep_of_some htm]
      have hf := tryMerge_eq_some_forall₂ nT qT x K k2 htm
      apply ih _ hxs
      · exact pairwise_of_forall₂_eqKeys rankLe_congr hf hK
      · intro ex' hex' it hit
        obtain ⟨ex, hexm, hk⟩ := forall₂_eqKeys_mem_right hf hex'
        rw [← hk.2.2.2]
        exact hlb ex hexm it (List.mem_cons_of_mem x hit)

theorem deduplicateItems_sorted (items : List Item) (nT qT : ℚ) :
    (deduplicateItems items nT qT).Pairwise
      (fun a b => rank b.confidence ≤ rank a.confidence) := by
  apply sorted_foldl_dedupStep
  · exact sortDescBy_pairwise (fun it => rank it.confidence) items
  · exact List.Pairwise.nil
  · intro ex hex
    exact absurd hex (List.not_mem_nil ex)

/-- On a kept list already free of near duplicates, the walk appends every
candidate unchanged. -/
theorem foldl_dedupStep_id (nT qT : ℚ) :
    ∀ l K : List Item, (K ++ l).Pairwise (noDup nT qT) →
      l.foldl (dedupStep nT qT) K = K ++ l := by
  intro l
  induction l with
  | nil => intro K _; simp
  | cons x xs ih =>
    intro K h
    have hnone : tryMerge nT qT x K = none := by
      rw [tryMerge_eq_none_iff]
      intro ex hex
      exact (List.pairwise_append.mp h).2.2 ex hex x (List.mem_cons_self x xs)
    show xs.foldl (dedupStep nT qT) (dedupStep nT qT K x) = K ++ x :: xs
    rw [dedupStep_of_none hnone]
    have h2 : ((K ++ [x]) ++ xs).Pairwise (noDup nT qT) := by
      rw [show (K ++ [x]) ++ xs = K ++ x :: xs by simp]
      exact h
    rw [ih (K ++ [x]) h2]
    simp

/-- C1: for every input collection of detected items, in the output of
deduplicateItems (with the default thresholds 0.75 and 0.70) no two
distinct surviving items of the same category have name similarity
at least 0.75 or search-phrase similarity at least 0.70. -/
theorem deduplicateItems_no_near_duplicates (items : List Item) (x y : Item)
    (hx : x ∈ deduplicateItems items (3 / 4) (7 / 10))
    (hy : y ∈ deduplicateItems items (3 / 4) (7 / 10))
    (hne : x ≠ y) (hcat : x.category = y.category) :
    similarity x.name y.name < 3 / 4 ∧ similarity x.search_query y.search_query < 7 / 10 := by
  have hp := deduplicateItems_pairwise items (3 / 4) (7 / 10)
  have h := hp.forall (noDup_symmetric (3 / 4) (7 / 10)) hx hy hne
  obtain ⟨h1, h2⟩ := h hcat.symm
  constructor
  · rw [similarity_symm_aux]; exact h1
  · rw [similarity_symm_aux]; exact h2

theorem deduplicateItems_no_near_duplicates_witness :
    itemA ∈ deduplicateItems [itemA, itemB] (3 / 4) (7 / 10) ∧
      itemB ∈ deduplicateItems [itemA, itemB] (3 / 4) (7 / 10) ∧
      itemA ≠ itemB ∧ itemA.category = itemB.category ∧
      similarity itemA.name itemB.name < 3 / 4 ∧
      similarity itemA.search_query itemB.search_query < 7 / 10 := by
  have hd : deduplicateItems [itemA, itemB] (3 / 4) (7 / 10) = [itemA, itemB] := by
    simp [deduplicateItems, sortDescBy, insDescBy, rank, dedupStep, tryMerge, similarity,
      bigrams, countConsume, mergeInto, mergeFeatures, addUniq, itemA, itemB, lc]
    norm_num
  have hne : itemA ≠ itemB := by simp [itemA, itemB, lc]
  have hmemA : itemA ∈ deduplicateItems [itemA, itemB] (3 / 4) (7 / 10) := by
    rw [hd]; simp
  have hmemB : itemB ∈ deduplicateItems [itemA, itemB] (3 / 4) (7 / 10) := by
    rw [hd]; simp
  obtain ⟨c1, c2⟩ :=
    deduplicateItems_no_near_duplicates [itemA, itemB] itemA itemB hmemA hmemB hne rfl
  exact ⟨hmemA, hmemB, hne, rfl, c1, c2⟩

theorem mem_foldl_addUniq (s : String) :
    ∀ (l acc : List String), s ∈ l.foldl addUniq acc ↔ s ∈ acc ∨ s ∈ l := by
  intro l
  induction l with
  | nil => intro acc; simp
  | cons f fs ih =>
    intro acc
    rw [List.foldl_cons, ih]
    have haddq : s ∈ addUniq acc f ↔ s ∈ acc ∨ s = f := by
      unfold addUniq
      by_cases hf : f ∈ acc
      · rw [if_pos hf]
        exact ⟨fun h => Or.inl h, fun h => h.elim id (fun hs => hs ▸ hf)⟩
      · rw [if_neg hf]
        simp
    rw [haddq, List.mem_cons]
    tauto

/-- The merged feature list holds exactly the union of the two feature
sets. -/
theorem mem_mergeFeatures (s : String) (ex cand : List String) :
    s ∈ mergeFeatures ex cand ↔ s ∈ ex ∨ s ∈ cand := by
  unfold mergeFeatures
  rw [mem_foldl_addUniq, mem_foldl_addUniq]
  simp

/-- C2: for every two items in the same category with identical names and
differing confidence levels (stated as: `a` ranks strictly above `b`),
whichever order they are given to deduplicateItems, exactly the
higher-confidence item survives, and the survivor's notable-features set
equals the union of both items' notable-features sets. -/
theorem deduplicateItems_confidence_merge (a b : Item)
    (hcat : a.category = b.category) (hname : a.name = b.name)
    (hconf : rank b.confidence < rank a.confidence) :
    deduplicateItems [a, b] (3 / 4) (7 / 10) = [mergeInto a b] ∧
      deduplicateItems [b, a] (3 / 4) (7 / 10) = [mergeInto a b] ∧
      (mergeInto a b).name = a.name ∧ (mergeInto a b).confidence = a.confidence ∧
      ∀ s, s ∈ (mergeInto a b).notable_features ↔
        s ∈ a.notable_features ∨ s ∈ b.notable_features := by
  have hks : rank b.confidence ≤ rank a.confidence := le_of_lt hconf
  have hsort1 : sortDescBy (fun it => rank it.confidence) [a, b] = [a, b] := by
    simp [sortDescBy, insDescBy, hks]
  have hsort2 : sortDescBy (fun it => rank it.confidence) [b, a] = [a, b] := by
    simp [sortDescBy, insDescBy, not_le.mpr hconf]
  have hstep1 : dedupStep (3 / 4) (7 / 10) [] a = [a] := by
    simp [dedupStep, tryMerge]
  have hsim : similarity b.name a.name = 1 := by
    rw [← hname, similarity_self]
  have htm : tryMerge (3 / 4) (7 / 10) b [a] = some [mergeInto a b] := by
    rw [tryMerge, if_neg (not_ne_iff.mpr hcat.symm),
      if_pos (Or.inl (by rw [hsim]; norm_num))]
  have hfold : List.foldl (dedupStep (3 / 4) (7 / 10)) [] [a, b] = [mergeInto a b] := by
    show dedupStep _ _ (dedupStep _ _ [] a) b = _
    rw [hstep1, dedupStep_of_some htm]
  refine ⟨?_, ?_, rfl, rfl, fun s => mem_mergeFeatures s _ _⟩
  · show List.foldl _ [] (sortDescBy (fun it => rank it.confidence) [a, b]) = _
    rw [hsort1, hfold]
  · show List.foldl _ [] (sortDescBy (fun it => rank it.confidence) [b, a]) = _
    rw [hsort2, hfold]

theorem deduplicateItems_confidence_merge_witness :
    itemHigh.category = itemMed.category ∧ itemHigh.name = itemMed.name ∧
      rank itemMed.confidence < rank itemHigh.confidence ∧
      deduplicateItems [itemHigh, itemMed] (3 / 4) (7 / 10) = [mergeInto itemHigh itemMed] ∧
      deduplicateItems [itemMed, itemHigh] (3 / 4) (7 / 10) = [mergeInto itemHigh itemMed] := by
  have hconf : rank itemMed.confidence < rank itemHigh.confidence := by
    simp [rank, itemHigh, itemMed]
  obtain ⟨h1, h2, _, _, _⟩ := deduplicateItems_confidence_merge itemHigh itemMed rfl rfl hconf
  exact ⟨rfl, rfl, hconf, h1, h2⟩

/-- C5: deduplicateItems is idempotent: applying it to its own output
(at the default thresholds) returns that output unchanged. -/
theorem deduplicateItems_idempotent (items : List Item) :
    deduplicateItems (deduplicateItems items (3 / 4) (7 / 10)) (3 / 4) (7 / 10) =
      deduplicateItems items (3 / 4) (7 / 10) := by
  have hsorted := deduplicateItems_sorted items (3 / 4) (7 / 10)
  have hpair := deduplicateItems_pairwise items (3 / 4) (7 / 10)
  show List.foldl _ []
      (sortDescBy (fun it => rank it.confidence) (deduplicateItems items (3 / 4) (7 / 10))) = _
  rw [sortDescBy_eq_of_pairwise (fun it : Item => rank it.confidence)
    (deduplicateItems items (3 / 4) (7 / 10)) hsorted]
  have h := foldl_dedupStep_id (3 / 4) (7 / 10) (deduplicateItems items (3 / 4) (7 / 10)) []
    (by simpa using hpair)
  simpa using h

/-! ## Price lookup client and batch enricher -/

/-- C6: findSoldListings never raises an error to its caller: it is a
total function of the request outcome, and on every failure outcome (a
network failure, a non-success HTTP status, an unparseable body, or a
marketplace-reported error) the returned value is the
`{available: false, reason}` shape — also when the credential is absent. -/
theorem findSoldListings_failure_unavailable (appId : Option String) (q : List Char)
    (opts : LookupOptions) (o : Outcome) (hfail : o.isFailure = true) :
    ∃ reason, findSoldListings appId q opts o = .unavailable reason := by
  cases appId with
  | none => exact ⟨"EBAY_APP_ID not configured", rfl⟩
  | some k =>
    cases o with
    | networkError msg => exact ⟨msg, rfl⟩
    | httpError status => exact ⟨"eBay API error: " ++ toString status, rfl⟩
    | jsonError msg => exact ⟨msg, rfl⟩
    | body b =>
      refine ⟨b.errorMessage.getD ("Unknown eBay API error"), ?_⟩
      simp only [findSoldListings]
      rw [if_pos (show b.ack ≠ some ("Success") by simpa [Outcome.isFailure] using hfail)]

theorem findSoldListings_failure_unavailable_witness :
    (Outcome.networkError ("boom")).isFailure = true ∧
      ∃ reason, findSoldListings (some ("app")) (lc ("q")) ceOpts (.networkError ("boom")) =
        .unavailable reason :=
  ⟨rfl, findSoldListings_failure_unavailable (some ("app")) (lc ("q")) ceOpts
    (.networkError ("boom")) rfl⟩

/-- The batched driver produces exactly the per-item task results, in item
order: slices are processed sequentially and each settled slice is pushed
in order. -/
theorem batchPriceLookup_eq_map (lookup : LookupCall → LookupResult) (c : ℕ) :
    ∀ items : List BItem, batchPriceLookup lookup c items = items.map (entryOf lookup) := by
  have H : ∀ (n : ℕ) (items : List BItem), items.length ≤ n →
      batchPriceLookup lookup c items = items.map (entryOf lookup) := by
    intro n
    induction n with
    | zero =>
      intro items h
      cases items with
      | nil => rw [batchPriceLookup]; rfl
      | cons it rest => simp at h
    | succ m ihm =>
      intro items h
      cases items with
      | nil => rw [batchPriceLookup]; rfl
      | cons it rest =>
        rw [batchPriceLookup]
        have hlen : (rest.drop (c - 1)).length ≤ m := by
          have h1 : (rest.drop (c - 1)).length ≤ rest.length := by
            simpa using List.length_drop_le (c - 1) rest
          have h2 : rest.length ≤ m := Nat.le_of_succ_le_succ (by simpa using h)
          exact h1.trans h2
        rw [ihm _ hlen, ← List.map_append, List.cons_append, List.take_append_drop]
  exact fun items => H items.length items le_rfl

/-- C8: for every item with a falsy search phrase (absent or empty),
batchPriceLookup produces for that item, without invoking the marketplace
lookup (no planned call exists and the task result does not depend on the
marketplace at all), the record with ebay = unavailable, reason "No search
query"; and the batch result is exactly the per-item task results in item
order. -/
theorem batchPriceLookup_no_search_query (lookup lookup' : LookupCall → LookupResult)
    (c : ℕ) (items : List BItem) (it : BItem)
    (hq : it.search_query = none ∨ it.search_query = some []) :
    entryOf lookup it = ⟨it.name, .unavailable ("No search query")⟩ ∧
      plannedCall it = none ∧
      entryOf lookup it = entryOf lookup' it ∧
      batchPriceLookup lookup c items = items.map (entryOf lookup) := by
  have hpc : plannedCall it = none := by
    rcases hq with h | h
    · simp [plannedCall, h]
    · simp [plannedCall, h]
  refine ⟨?_, hpc, ?_, batchPriceLookup_eq_map lookup c items⟩
  · simp [entryOf, hpc]
  · simp [entryOf, hpc]

theorem batchPriceLookup_no_search_query_witness :
    (ce8Item.search_query = none ∨ ce8Item.search_query = some []) ∧
      (entryOf ceLookup ce8Item = ⟨ce8Item.name, .unavailable ("No search query")⟩ ∧
        plannedCall ce8Item = none ∧
        entryOf ceLookup ce8Item = entryOf (fun _ => .unavailable ("other")) ce8Item ∧
        batchPriceLookup ceLookup 3 [ce8Item] = [ce8Item].map (entryOf ceLookup)) :=
  ⟨Or.inr rfl, batchPriceLookup_no_search_query ceLookup (fun _ => .unavailable ("other")) 3
    [ce8Item] ce8Item (Or.inr rfl)⟩

theorem jsRound_natCast_mul_three (n : ℕ) : jsRound ((n : ℚ) * 3) = (n : ℤ) * 3 := by
  rw [jsRound, show ((n : ℚ) * 3 + 1 / 2) = ((n * 3 : ℤ) : ℚ) + 1 / 2 by push_cast; ring,
    Int.floor_int_add]
  norm_num

/-- C7 (amended): for every item with a search phrase whose
estimated_value_hint contains dollar amounts (low L = first match, high
H = second match or L), the batch task invokes the price lookup with
minPrice = max(1, round(L * 0.3)) (round half up) and maxPrice = 3 * H. -/
theorem batchPriceLookup_widened_price_range (lookup : LookupCall → LookupResult)
    (it : BItem) (q h : List Char) (L : ℕ) (rest : List ℕ)
    (hq : it.search_query = some q) (hqne : q ≠ [])
    (hh : it.estimated_value_hint = some h)
    (hm : dollarMatches h = L :: rest) :
    entryOf lookup it =
      ⟨it.name, lookup ⟨q, some (max 1 (jsRound ((L : ℚ) * (3 / 10)))),
        some ((rest.headD L : ℤ) * 3)⟩⟩ := by
  have hne : h ≠ [] := by
    intro hnil
    rw [hnil] at hm
    simp [dollarMatches] at hm
  have hpr : priceRange it.estimated_value_hint =
      (some (max 1 (jsRound ((L : ℚ) * (3 / 10)))), some ((rest.headD L : ℤ) * 3)) := by
    rw [hh]
    simp only [priceRange, if_neg hne, hm]
    rw [jsRound_natCast_mul_three]
  cases q with
  | nil => exact absurd rfl hqne
  | cons c0 q0 =>
    have hcall : plannedCall it = some ⟨c0 :: q0,
        some (max 1 (jsRound ((L : ℚ) * (3 / 10)))), some ((rest.headD L : ℤ) * 3)⟩ := by
      simp only [plannedCall, hq, hpr]
    simp [entryOf, hcall]

theorem batchPriceLookup_widened_price_range_witness :
    ce7Item.search_query = some (lc ("q")) ∧ lc ("q") ≠ [] ∧
      ce7Item.estimated_value_hint = some (lc ("$5")) ∧
      dollarMatches (lc ("$5")) = [5] ∧
      entryOf ceLookup ce7Item =
        ⟨ce7Item.name, ceLookup ⟨lc ("q"), some (max 1 (jsRound ((5 : ℚ) * (3 / 10)))),
          some ((5 : ℤ) * 3)⟩⟩ := by
  have hm : dollarMatches (lc ("$5")) = [5] := by
    simp [dollarMatches, startsWithDigit, digitsVal, lc]
  refine ⟨rfl, by simp [lc], rfl, hm, ?_⟩
  have h := batchPriceLookup_widened_price_range ceLookup ce7Item (lc ("q")) (lc ("$5"))
    5 [] rfl (by simp [lc]) rfl hm
  simpa using h

/-- C7 counterexample: for the hint "$5" the invoked minPrice is 2, which
is not 30% of the low bound 5 (the source rounds and clamps). -/
theorem batchPriceLookup_price_range_cex :
    plannedCall ce7Item = some ⟨lc ("q"), some 2, some 15⟩ ∧ ¬ ((2 : ℚ) = (3 / 10) * 5) := by
  constructor
  · simp [plannedCall, ce7Item, priceRange, dollarMatches, startsWithDigit, digitsVal,
      jsRound, lc]
    norm_num [Int.floor_eq_iff]
  · norm_num

/-! ## Report sorting -/

/-- C3 (amended): the item list of the report is sorted in descending
order by the code's key: the attached marketplace median when comp data is
present and the median is nonzero, otherwise the first dollar amount
parsed from estimated_value_hint (0 when absent or unparseable); the `||`
in the comparator falls through on a zero median. -/
theorem reportItems_sorted_by_fallback_value (lookup : LookupCall → LookupResult)
    (deduped : List Item) :
    (reportItems lookup deduped).Pairwise (fun a b => sortValue b ≤ sortValue a) :=
  sortDescBy_pairwise sortValue _

theorem dollarMatches_30 : dollarMatches ['$', '3', '0'] = [30] := by
  simp [dollarMatches, startsWithDigit, digitsVal]

theorem dollarMatches_50 : dollarMatches ['$', '5', '0'] = [50] := by
  simp [dollarMatches, startsWithDigit, digitsVal]

theorem jsRound_fifteen : jsRound ((50 : ℚ) * (3 / 10)) = 15 := by
  rw [jsRound]
  norm_num [Int.floor_eq_iff]

theorem jsRound_hundredfifty : jsRound ((50 : ℚ) * 3) = 150 := by
  rw [jsRound]
  norm_num [Int.floor_eq_iff]

theorem jsRound_zero_point_four : jsRound (2 / 5) = 0 := by
  rw [jsRound]
  norm_num [Int.floor_eq_iff]

/-- C3 counterexample: with a lookup whose only comp sold for 40 cents,
the attached median is 0, the code's sort key falls back to the parsed
estimate ($50) and places the item first, while the claimed key
(median whenever comp data is present, here 0) would require it after the
$30 sibling: the returned list is not sorted by the claimed key. -/
theorem reportItems_not_sorted_by_claimed_key_cex :
    ¬ (reportItems ceLookup [ceItemX, ceItemY]).Pairwise
      (fun a b => claimValue b ≤ claimValue a) := by
  simp [reportItems, ceLookup, ceItemX, ceItemY, batchPriceLookup, entryOf, plannedCall,
    priceRange, dollarMatches_30, dollarMatches_50, jsRound_fifteen, jsRound_hundredfifty,
    jsRound_zero_point_four, findSoldListings, ceBody, ceOpts, median, sortDescBy, insDescBy,
    attachEbay, toBItem, sortValue, claimValue, parseEstimate, lc]
  norm_num [List.pairwise_cons, dollarMatches_30, dollarMatches_50]
  simp

/-! ## Dynamic typing of the deduplicator -/

theorem similarityE_ok (a b : Option (List Char)) (ha : a.isSome = true)
    (hb : b.isSome = true) : ∃ v, similarityE a b = .ok v := by
  cases a with
  | none => simp at ha
  | some x =>
    cases b with
    | none => simp at hb
    | some y => exact ⟨similarity x y, rfl⟩

theorem tryMergeE_ok (nT qT : ℚ) (item : RawItem) (hit : stringFields item) :
    ∀ kept : List RawItem, (∀ ex ∈ kept, stringFields ex) →
      ∃ r, tryMergeE nT qT item kept = .ok r := by
  intro kept
  induction kept with
  | nil => intro _; exact ⟨none, rfl⟩
  | cons ex rest ih =>
    intro hall
    have hex := hall ex (List.mem_cons_self ex rest)
    have hrest : ∀ e ∈ rest, stringFields e := fun e he => hall e (List.mem_cons_of_mem ex he)
    obtain ⟨r, hr⟩ := ih hrest
    rw [tryMergeE]
    by_cases hcat : item.category ≠ ex.category
    · rw [if_pos hcat, hr]
      exact ⟨r.map (ex :: ·), rfl⟩
    · rw [if_neg hcat]
      obtain ⟨n, hn⟩ := similarityE_ok item.name ex.name hit.1 hex.1
      obtain ⟨qs, hqs⟩ := similarityE_ok item.search_query ex.search_query hit.2 hex.2
      rw [hn, hqs]
      dsimp only
      by_cases hsim : nT ≤ n ∨ qT ≤ qs
      · exact ⟨some (mergeIntoE ex item :: rest), by rw [if_pos hsim]⟩
      · rw [if_neg hsim, hr]
        exact ⟨r.map (ex :: ·), rfl⟩

theorem tryMergeE_some_fields (nT qT : ℚ) (item : RawItem) (hit : stringFields item) :
    ∀ kept k2 : List RawItem, tryMergeE nT qT item kept = .ok (some k2) →
      (∀ ex ∈ kept, stringFields ex) → ∀ e ∈ k2, stringFields e := by
  intro kept
  induction kept with
  | nil =>
    intro k2 h _
    simp [tryMergeE] at h
  | cons ex rest ih =>
    intro k2 h hall
    have hex := hall ex (List.mem_cons_self ex rest)
    have hrest : ∀ e ∈ rest, stringFields e := fun e he => hall e (List.mem_cons_of_mem ex he)
    rw [tryMergeE] at h
    by_cases hcat : item.category ≠ ex.category
    · rw [if_pos hcat] at h
      cases htr : tryMergeE nT qT item rest with
      | error e => rw [htr] at h; simp [Except.map] at h
      | ok r =>
        rw [htr] at h
        cases r with
        | none => simp [Except.map] at h
        | some r2 =>
          have hk2 : k2 = ex :: r2 := by
            simpa [Except.map] using h.symm
          subst hk2
          intro e he
          rcases List.mem_cons.mp he with rfl | he'
          · exact hex
          · exact ih r2 htr hrest e he'
    · rw [if_neg hcat] at h
      obtain ⟨n, hn⟩ := similarityE_ok item.name ex.name hit.1 hex.1
      obtain ⟨qs, hqs⟩ := similarityE_ok item.search_query ex.search_query hit.2 hex.2
      rw [hn, hqs] at h
      dsimp only at h
      by_cases hsim : nT ≤ n ∨ qT ≤ qs
      · rw [if_pos hsim] at h
        have hk2 : k2 = mergeIntoE ex item :: rest := by
          simpa using h.symm
        subst hk2
        intro e he
        rcases List.mem_cons.mp he with rfl | he'
        · exact ⟨hex.1, hex.2⟩
        · exact hrest e he'
      · rw [if_neg hsim] at h
        cases htr : tryMergeE nT qT item rest with
        | error e => rw [htr] at h; simp [Except.map] at h
        | ok r =>
          rw [htr] at h
          cases r with
          | none => simp [Except.map] at h
          | some r2 =>
            have hk2 : k2 = ex :: r2 := by
              simpa [Except.map] using h.symm
            subst hk2
            intro e he
            rcases List.mem_cons.mp he with rfl | he'
            · exact hex
            · exact ih r2 htr hrest e he'

theorem foldE_ok (nT qT : ℚ) :
    ∀ l K : List RawItem, (∀ e ∈ K, stringFields e) → (∀ e ∈ l, stringFields e) →
      ∃ out, l.foldl (dedupStepE nT qT) (.ok K) = .ok out := by
  intro l
  induction l with
  | nil => intro K hK _; exact ⟨K, rfl⟩
  | cons x xs ih =>
    intro K hK hl
    have hx := hl x (List.mem_cons_self x xs)
    have hxs : ∀ e ∈ xs, stringFields e := fun e he => hl e (List.mem_cons_of_mem x he)
    obtain ⟨r, hr⟩ := tryMergeE_ok nT qT x hx K hK
    show ∃ out, xs.foldl (dedupStepE nT qT) (dedupStepE nT qT (.ok K) x) = .ok out
    cases r with
    | none =>
      have hstep : dedupStepE nT qT (.ok K) x = .ok (K ++ [x]) := by
        simp [dedupStepE, hr]
      rw [hstep]
      refine ih (K ++ [x]) ?_ hxs
      intro e he
      rcases List.mem_append.mp he with he' | he'
      · exact hK e he'
      · rw [List.mem_singleton] at he'
        rw [he']
        exact hx
    | some k2 =>
      have hstep : dedupStepE nT qT (.ok K) x = .ok k2 := by
        simp [dedupStepE, hr]
      rw [hstep]
      exact ih k2 (tryMergeE_some_fields nT qT x hx K k2 hr hK) hxs

/-- C10: the deduplicator is total exactly under the implicit precondition
that every item's name and search_query are strings: with all fields
present its embedding never reaches an error branch, while the concrete
input [rawGood, rawBad] (rawBad lacks a search_query) aborts with the
TypeError raised by lowercasing the missing field, so in the pipeline such
a vision-model item fails the entire analysis run. -/
theorem deduplicateItemsE_string_fields :
    (∀ items : List RawItem, (∀ it ∈ items, stringFields it) →
      ∃ out, deduplicateItemsE items (3 / 4) (7 / 10) = .ok out) ∧
      deduplicateItemsE [rawGood, rawBad] (3 / 4) (7 / 10) = .error undefinedLowerMsg := by
  constructor
  · intro items hall
    exact foldE_ok (3 / 4) (7 / 10) (sortDescBy (fun it => rankD it.confidence) items) []
      (fun e he => absurd he (List.not_mem_nil e))
      (fun e he => hall e ((mem_sortDescBy (fun it => rankD it.confidence) e items).mp he))
  · simp [deduplicateItemsE, sortDescBy, insDescBy, rankD, rank, dedupStepE, tryMergeE,
      similarityE, similarity, bigrams, countConsume, rawGood, rawBad, lc]

theorem deduplicateItemsE_string_fields_witness :
    ∃ out, deduplicateItemsE [rawGood] (3 / 4) (7 / 10) = .ok out :=
  deduplicateItemsE_string_fields.1 [rawGood] (by
    intro it hmem
    rw [List.mem_singleton] at hmem
    rw [hmem]
    exact ⟨rfl, rfl⟩)

end EstateHunter
